import Mathlib

/-!
Shallow embedding of `src/persistent.h` (namespace `persistent`), a header
that overlays C++ values onto memory-mapped files.

Modelling conventions:
* A file's contents is a `List Nat` of byte values; a file system entry is
  `Option Bytes` (`none` = the path does not exist).
* `::lseek(fd,0,SEEK_END)` is the length of the contents list.
* The uninitialized heap buffer `new char[n-off]` that `resize` writes is
  modelled by a parameter `junk : Nat → Nat` giving the indeterminate byte
  values: the code makes no promise about them, so theorems quantify over
  `junk`.
* Exceptions (`throw tmx::syserr`, `enforce`) are `Except String`.
* A successful `::mmap` of the leading `n` bytes of a file is modelled as
  direct access to those bytes: reads see `file.take n` and placement-new
  writes go back into the file (the mapping is `MAP_SHARED`).
* Placement-constructing a `T` from given constructor arguments is modelled
  by the byte image `ctor : Bytes` (of length `sizeof(T)`) that the
  constructed object leaves in memory.
-/

namespace Persistent

abbrev Bytes := List Nat

/-- Embedding of `persistent::resize(int fd, size_t n = 0)`
(src/persistent.h:14-30): `off` is the end-of-file offset; if `n == 0` the
target becomes `off`; else if `off < n` the file is extended by writing an
`n - off`-byte uninitialized buffer (bytes supplied by `junk`) at the end.
Returns the new contents and `min(off, n)` (with `n` already rebound). -/
def resize (file : Bytes) (req : Nat) (junk : Nat → Nat) : Bytes × Nat :=
  let off := file.length
  let n := if req = 0 then off else req
  let file' :=
    if req ≠ 0 ∧ off < n then file ++ (List.range (n - off)).map junk
    else file
  (file', min off n)

/-- Embedding of `persistent::open(const std::string&, size_t n = 0)`
(src/persistent.h:38-48): when `n > 0` the file is created empty if absent
(`O_CREAT|O_EXCL`, falling back to plain `O_RDWR` when it exists); when
`n == 0` the file must already exist (`enforce(fd >= 0, ...)`).  Then
`resize(fd, n)` runs.  Result: new file contents and initialized length. -/
def openFile (fs : Option Bytes) (n : Nat) (junk : Nat → Nat) :
    Except String (Bytes × Nat) :=
  match fs with
  | none =>
      if n = 0 then Except.error "persistent: no such file"
      else Except.ok (resize [] n junk)
  | some c => Except.ok (resize c n junk)

/-- The kernel's error return of the `mmap(2)` syscall: `MAP_FAILED` is
`(void*)-1`, i.e. address `2^64 - 1` on a 64-bit platform — not the null
pointer. -/
def MAP_FAILED : Nat := 2 ^ 64 - 1

/-- Embedding of `persistent::mmap(size_t n, int fd)` (src/persistent.h:52-58).
`raw` is the address value the syscall returned (`MAP_FAILED` when the
syscall failed).  The source checks `if(!m) throw syserr("mmap")`, i.e. it
compares against the null pointer, and otherwise returns `m` as the mapped
address. -/
def mmap (raw : Nat) : Except String Nat :=
  if raw = 0 then Except.error "mmap" else Except.ok raw

/-- Write the byte string `v` into `mem` starting at offset `off`
(the effect of an in-bounds placement `new` at that offset). -/
def writeAt (mem : Bytes) (off : Nat) (v : Bytes) : Bytes :=
  mem.take off ++ v ++ mem.drop (off + v.length)

/-- Observable result of constructing a `persistent::object<T>`:
final file contents, the bytes of the live `T` (the mapped view), the
initialized length reported by the base `memory<sizeof(T)>`, and whether the
constructor ran placement `new`. -/
structure ObjResult where
  file : Bytes
  live : Bytes
  init : Nat
  constructed : Bool
  deriving Repr, DecidableEq

/-- Embedding of `persistent::object<T>::object(const std::string&, Args...)`
(src/persistent.h:183-190) together with its base
`memory<sizeof(T)>::memory(const std::string&)` (src/persistent.h:67-71):
open/resize the file to `sz = sizeof(T)` bytes, map the leading `sz` bytes,
and run `new(_po) T(args...)` — modelled as writing the byte image `ctor` —
exactly when `initialized() < sz`. -/
def objectOpen (sz : Nat) (ctor : Bytes) (fs : Option Bytes)
    (junk : Nat → Nat) : Except String ObjResult :=
  match openFile fs sz junk with
  | Except.error e => Except.error e
  | Except.ok (f, ini) =>
      if ini < sz then
        let region := writeAt (f.take sz) 0 ctor
        Except.ok ⟨region ++ f.drop sz, region, ini, true⟩
      else
        Except.ok ⟨f, f.take sz, ini, false⟩

/-- Observable result of constructing a `persistent::array<T>`:
final file contents, the mapped region (`N*sizeof(T)` bytes for the sized
constructor, the whole file in discovery mode), the initialized length
reported by the base `alloc`, the element count `_size`, and the list of
indices at which placement `new` ran, in execution order. -/
structure ArrResult where
  file : Bytes
  region : Bytes
  init : Nat
  size : Nat
  built : List Nat
  deriving Repr, DecidableEq

/-- Iteration worker for the sized `array<T>` construction loop: runs the
remaining `fuel` iterations starting at index `i`, writing the element image
`ctor` at byte offset `i * esz` each time. -/
def buildLoopAux (esz : Nat) (ctor : Bytes) :
    Nat → Nat → Bytes → Bytes × List Nat
  | 0, _, region => (region, [])
  | fuel + 1, i, region =>
      let p := buildLoopAux esz ctor fuel (i + 1) (writeAt region (i * esz) ctor)
      (p.1, i :: p.2)

/-- The construction loop of the sized `array<T>` constructor
(src/persistent.h:242-243): `for(size_t i = init/sizeof(T); i < _size; ++i)
new(_po+i) T(args...)` — it runs once for each `i` in `[i, N)`, i.e.
`N - i` times.  Returns the region after the writes and the indices
constructed, in order. -/
def buildLoop (esz : Nat) (ctor : Bytes) (i N : Nat) (region : Bytes) :
    Bytes × List Nat :=
  buildLoopAux esz ctor (N - i) i region

/-- Embedding of
`persistent::array<T>::array(size_t n, const std::string&, Args...)`
(src/persistent.h:236-244) with its base `alloc(size_t, const std::string&)`
(src/persistent.h:102-110): open/resize the file to `n*sizeof(T)` bytes, map
that many leading bytes, set `_size = n`, and placement-construct elements
from `initialized()/sizeof(T)` up to `_size`. -/
def arrayOpenSized (esz N : Nat) (ctor : Bytes) (fs : Option Bytes)
    (junk : Nat → Nat) : Except String ArrResult :=
  match openFile fs (N * esz) junk with
  | Except.error e => Except.error e
  | Except.ok (f, ini) =>
      let p := buildLoop esz ctor (ini / esz) N (f.take (N * esz))
      Except.ok ⟨p.1 ++ f.drop (N * esz), p.1, ini, N, p.2⟩

/-- Modulus of the C++ type `unsigned` (32 bits on this platform).
`alloc::size()` (src/persistent.h:149) is declared `unsigned size() const`
although the member `_size` it returns is a `size_t`, so the returned value
is `_size % 2^32`. -/
def UNSIGNED_MOD : Nat := 2 ^ 32

/-- Embedding of `persistent::array<T>::array(const std::string&)`
(src/persistent.h:247-251) with its base `alloc(const std::string&)`
(src/persistent.h:111-119): open the existing file with `n = 0`, so
`_size(alloc) = _init = L` (the file's full length) and the whole file is
mapped; the element count is `alloc::size() / sizeof(T)` where
`alloc::size()` narrows `size_t` to `unsigned`.  No element is constructed. -/
def arrayOpenDiscover (esz : Nat) (fs : Option Bytes) :
    Except String ArrResult :=
  match openFile fs 0 (fun _ => 0) with
  | Except.error e => Except.error e
  | Except.ok (f, _) =>
      let bytesLen := f.length
      Except.ok ⟨f, f, bytesLen, (bytesLen % UNSIGNED_MOD) / esz, []⟩

/-- Embedding of `persistent::array<T>::operator[]` (src/persistent.h:215-224):
`if(n >= _size) throw error("persistent: overlimit: ...")`, otherwise a
reference to element `n`, modelled as its `sizeof(T)` bytes of the region. -/
def arrayIndex (esz : Nat) (r : ArrResult) (n : Nat) : Except String Bytes :=
  if r.size ≤ n then Except.error "persistent: overlimit"
  else Except.ok ((r.region.drop (n * esz)).take esz)

/-! ### Handle model: move construction and teardown

`memory`, `alloc`, `object<T>` and `array<T>` all delete their copy
constructors (src/persistent.h:72, 121, 167, 203) and provide move
constructors.  The handle model below records only the ownership-relevant
members; teardown is modelled as the list of side effects the destructor
performs. -/

/-- A side effect a destructor may perform on the mapping or the file. -/
inductive Action where
  | unmapAct (addr len : Nat)
  | writeAct (addr : Nat) (v : Nat)
  deriving Repr, DecidableEq

/-- Handle state of `memory<SIZE>`: `_map` (`none` = nullptr) and `_init`. -/
structure MemoryH where
  map : Option Nat
  init : Nat
  deriving Repr, DecidableEq

/-- `memory(memory&& m)` (src/persistent.h:73-79): the target starts as
`{nullptr, 0}` and swaps with the source; returns (target, moved-from
source). -/
def MemoryH.moveCtor (m : MemoryH) : MemoryH × MemoryH :=
  (⟨m.map, m.init⟩, ⟨none, 0⟩)

/-- `~memory()` (src/persistent.h:81-83): `if(_map) ::munmap(_map, SIZE);`
— it never writes. -/
def MemoryH.dtor (sz : Nat) (m : MemoryH) : List Action :=
  match m.map with
  | some a => [Action.unmapAct a sz]
  | none => []

/-- Handle state of `alloc`: `_map`, `_init`, `_size`. -/
structure AllocH where
  map : Option Nat
  init : Nat
  size : Nat
  deriving Repr, DecidableEq

/-- `alloc(alloc&& m)` (src/persistent.h:122-130): target starts as
`{nullptr, 0, 0}` and swaps all three members with the source. -/
def AllocH.moveCtor (a : AllocH) : AllocH × AllocH :=
  (⟨a.map, a.init, a.size⟩, ⟨none, 0, 0⟩)

/-- `~alloc()` (src/persistent.h:142-144): `if(_map) ::munmap(_map, _size);`
— it never writes. -/
def AllocH.dtor (a : AllocH) : List Action :=
  match a.map with
  | some p => [Action.unmapAct p a.size]
  | none => []

/-- Handle state of `object<T>`: the `memory<sizeof(T)>` base plus the raw
pointer `_po`. -/
structure ObjectH where
  base : MemoryH
  po : Nat
  deriving Repr, DecidableEq

/-- `object(object<T>&&) = default` (src/persistent.h:168): move-constructs
the base (which swaps) and copies the scalar member `_po`. -/
def ObjectH.moveCtor (o : ObjectH) : ObjectH × ObjectH :=
  (⟨(o.base.moveCtor).1, o.po⟩, ⟨(o.base.moveCtor).2, o.po⟩)

/-- `~object()` (src/persistent.h:169-172) deliberately does not destroy the
`T`; only the base destructor acts. -/
def ObjectH.dtor (sz : Nat) (o : ObjectH) : List Action :=
  o.base.dtor sz

/-- Handle state of `array<T>`: the `alloc` base plus `_size` and `_po`. -/
structure ArrayH where
  base : AllocH
  size : Nat
  po : Nat
  deriving Repr, DecidableEq

/-- `array(array<T>&&) = default` (src/persistent.h:204): move-constructs the
`alloc` base (which swaps) and copies the scalar members `_size`, `_po`. -/
def ArrayH.moveCtor (a : ArrayH) : ArrayH × ArrayH :=
  (⟨(a.base.moveCtor).1, a.size, a.po⟩, ⟨(a.base.moveCtor).2, a.size, a.po⟩)

/-- `~array()` (src/persistent.h:207-209) destroys no element; only the base
destructor acts. -/
def ArrayH.dtor (a : ArrayH) : List Action :=
  a.base.dtor

/-! ### Helper lemmas -/

/-- When the file is already long enough, `resize` leaves it unchanged and
returns the requested size (or, for a zero request, the file length). -/
theorem resize_no_grow (file : Bytes) (req : Nat) (junk : Nat → Nat)
    (h : req ≤ file.length) :
    resize file req junk = (file, if req = 0 then file.length else req) := by
  unfold resize
  by_cases h0 : req = 0
  · simp [h0]
  · have hnlt : ¬ file.length < req := by omega
    simp [h0, hnlt]
    omega

/-- When the file is shorter than the (nonzero) request, `resize` appends the
buffer bytes and returns the original length. -/
theorem resize_grow (file : Bytes) (req : Nat) (junk : Nat → Nat)
    (h : file.length < req) :
    resize file req junk =
      (file ++ (List.range (req - file.length)).map junk, file.length) := by
  have h0 : ¬ req = 0 := by omega
  unfold resize
  simp [h0, h]
  omega

theorem writeAt_length (mem : Bytes) (off : Nat) (v : Bytes)
    (h : off + v.length ≤ mem.length) :
    (writeAt mem off v).length = mem.length := by
  unfold writeAt
  simp [List.length_take, List.length_drop]
  omega

theorem writeAt_take_add (mem : Bytes) (off : Nat) (v : Bytes)
    (hoff : off ≤ mem.length) :
    (writeAt mem off v).take (off + v.length) = mem.take off ++ v := by
  unfold writeAt
  have hlen : off + v.length = (mem.take off ++ v).length := by
    simp [List.length_take]
    omega
  rw [hlen, List.take_left]

/-- Unrolling the sized-array construction loop: starting at index `i` on a
region of `(i + fuel) * esz` bytes, the loop leaves the first `i * esz` bytes
alone, overwrites the rest with `fuel` copies of the element image, and
records the indices `i, i+1, ..., i+fuel-1` in order. -/
theorem buildLoopAux_spec (esz : Nat) (ctor : Bytes) (hc : ctor.length = esz) :
    ∀ (fuel i : Nat) (region : Bytes), region.length = (i + fuel) * esz →
    buildLoopAux esz ctor fuel i region =
      (region.take (i * esz) ++ (List.replicate fuel ctor).flatten,
       List.range' i fuel) := by
  intro fuel
  induction fuel with
  | zero =>
      intro i region h
      have : region.take (i * esz) = region := by
        apply List.take_of_length_le
        rw [h]
        exact Nat.le_of_eq (by ring)
      simp [buildLoopAux, this]
  | succ fuel ih =>
      intro i region h
      have hstep : i * esz + esz ≤ region.length := by
        have h1 : (i + 1) * esz ≤ (i + (fuel + 1)) * esz :=
          Nat.mul_le_mul_right esz (by omega)
        have h2 : (i + 1) * esz = i * esz + esz := by ring
        omega
      have hoff : i * esz ≤ region.length := by omega
      have hlen' : (writeAt region (i * esz) ctor).length =
          (i + 1 + fuel) * esz := by
        have hw := writeAt_length region (i * esz) ctor (by rw [hc]; exact hstep)
        rw [hw, h]
        ring
      have hrec := ih (i + 1) (writeAt region (i * esz) ctor) hlen'
      have htake : (writeAt region (i * esz) ctor).take ((i + 1) * esz) =
          region.take (i * esz) ++ ctor := by
        have he : (i + 1) * esz = i * esz + ctor.length := by
          rw [hc]; ring
        rw [he]
        exact writeAt_take_add region (i * esz) ctor hoff
      simp only [buildLoopAux, hrec, htake]
      rw [List.range'_succ]
      simp [List.replicate_succ, List.append_assoc]

/-- The construction loop on a full region of `N * esz` bytes. -/
theorem buildLoop_spec (esz : Nat) (ctor : Bytes) (hc : ctor.length = esz)
    (i N : Nat) (region : Bytes) (hi : i ≤ N)
    (hlen : region.length = N * esz) :
    buildLoop esz ctor i N region =
      (region.take (i * esz) ++ (List.replicate (N - i) ctor).flatten,
       List.range' i (N - i)) := by
  unfold buildLoop
  apply buildLoopAux_spec esz ctor hc (N - i) i region
  rw [hlen]
  congr 1
  omega

/-! ### Computation lemmas for the constructors -/

/-- Opening an object on a fresh path: the file is created, grown to
`sizeof(T)` indeterminate bytes, reported fully uninitialized, and the
constructor image overwrites the whole region. -/
theorem objectOpen_fresh (sz : Nat) (ctor : Bytes) (junk : Nat → Nat)
    (hsz : 0 < sz) (hc : ctor.length = sz) :
    objectOpen sz ctor none junk = Except.ok ⟨ctor, ctor, 0, true⟩ := by
  unfold objectOpen openFile
  rw [if_neg (by omega : ¬ sz = 0),
    resize_grow [] sz junk (by simpa using hsz)]
  simp [hsz, writeAt, hc, List.take_of_length_le, List.drop_eq_nil_of_le]

/-- Opening an object on an existing file shorter than `sizeof(T)`: the file
grows and the constructor image overwrites the whole region. -/
theorem objectOpen_short (sz : Nat) (ctor : Bytes) (junk : Nat → Nat)
    (c : Bytes) (hlt : c.length < sz) (hc : ctor.length = sz) :
    objectOpen sz ctor (some c) junk =
      Except.ok ⟨ctor, ctor, c.length, true⟩ := by
  unfold objectOpen openFile
  dsimp only
  rw [resize_grow c sz junk hlt]
  have hflen : (c ++ (List.range (sz - c.length)).map junk).length = sz := by
    simp
    omega
  simp [hlt, writeAt, hc, hflen, List.take_of_length_le (le_of_eq hflen),
    List.drop_eq_nil_of_le (le_of_eq hflen)]

/-- Opening an object on an existing file of at least `sizeof(T)` bytes: the
file is untouched, the initialized length is `sizeof(T)`, and the existing
leading bytes become the live `T` with no construction. -/
theorem objectOpen_reuse (sz : Nat) (ctor : Bytes) (junk : Nat → Nat)
    (c : Bytes) (hsz : 0 < sz) (hge : sz ≤ c.length) :
    objectOpen sz ctor (some c) junk =
      Except.ok ⟨c, c.take sz, sz, false⟩ := by
  unfold objectOpen openFile
  dsimp only
  rw [resize_no_grow c sz junk hge, if_neg (by omega : ¬ sz = 0)]
  simp

/-- Opening a sized array over an existing file shorter than `N * sizeof(T)`
bytes: the file grows with indeterminate bytes, the initialized length is the
old file length, and the elements from `builtCount = oldLength / sizeof(T)`
up to `N` are constructed in ascending order, leaving the first
`builtCount * sizeof(T)` bytes unchanged. -/
theorem arrayOpenSized_grow (esz N : Nat) (ctor : Bytes) (junk : Nat → Nat)
    (c : Bytes) (he : 0 < esz) (hc : ctor.length = esz)
    (hlt : c.length < N * esz) :
    arrayOpenSized esz N ctor (some c) junk =
      Except.ok ⟨c.take (c.length / esz * esz) ++
          (List.replicate (N - c.length / esz) ctor).flatten,
        c.take (c.length / esz * esz) ++
          (List.replicate (N - c.length / esz) ctor).flatten,
        c.length, N, List.range' (c.length / esz) (N - c.length / esz)⟩ := by
  have hkN : c.length / esz ≤ N := by
    have h1 : c.length / esz ≤ N * esz / esz :=
      Nat.div_le_div_right (le_of_lt hlt)
    rwa [Nat.mul_div_cancel N he] at h1
  have hkc : c.length / esz * esz ≤ c.length := Nat.div_mul_le_self c.length esz
  have hflen : (c ++ (List.range (N * esz - c.length)).map junk).length =
      N * esz := by
    simp
    omega
  unfold arrayOpenSized openFile
  dsimp only
  rw [resize_grow c (N * esz) junk hlt]
  dsimp only
  rw [List.take_of_length_le (le_of_eq hflen),
    buildLoop_spec esz ctor hc (c.length / esz) N _ hkN hflen,
    List.take_append_of_le_length hkc,
    List.drop_eq_nil_of_le (le_of_eq hflen)]
  simp

/-- Opening a sized array on a fresh path: all `N` elements are constructed
in ascending order over the newly created region. -/
theorem arrayOpenSized_fresh (esz N : Nat) (ctor : Bytes) (junk : Nat → Nat)
    (he : 0 < esz) (hN : 0 < N) (hc : ctor.length = esz) :
    arrayOpenSized esz N ctor none junk =
      Except.ok ⟨(List.replicate N ctor).flatten,
        (List.replicate N ctor).flatten, 0, N, List.range' 0 N⟩ := by
  have hne : ¬ N * esz = 0 := by
    have := Nat.mul_pos hN he
    omega
  unfold arrayOpenSized openFile
  dsimp only
  rw [if_neg hne,
    resize_grow [] (N * esz) junk (by simpa using Nat.mul_pos hN he)]
  dsimp only
  simp only [List.length_nil, List.nil_append, Nat.sub_zero]
  have hflen : ((List.range (N * esz)).map junk).length = N * esz := by simp
  rw [Nat.zero_div, List.take_of_length_le (le_of_eq hflen),
    buildLoop_spec esz ctor hc 0 N _ (Nat.zero_le N) hflen,
    List.drop_eq_nil_of_le (le_of_eq hflen)]
  simp

/-- Opening a sized array over an existing file of at least `N * sizeof(T)`
bytes: the file is untouched, the initialized length is `N * sizeof(T)`, and
no element is constructed. -/
theorem arrayOpenSized_noGrow (esz N : Nat) (ctor : Bytes) (junk : Nat → Nat)
    (c : Bytes) (he : 0 < esz) (hN : 0 < N)
    (hge : N * esz ≤ c.length) :
    arrayOpenSized esz N ctor (some c) junk =
      Except.ok ⟨c, c.take (N * esz), N * esz, N, []⟩ := by
  have hne : ¬ N * esz = 0 := by
    have := Nat.mul_pos hN he
    omega
  unfold arrayOpenSized openFile
  dsimp only
  rw [resize_no_grow c (N * esz) junk hge, if_neg hne]
  dsimp only
  rw [Nat.mul_div_cancel N he]
  unfold buildLoop
  rw [Nat.sub_self]
  dsimp only [buildLoopAux]
  simp [List.take_append_drop]

/-- Opening a sized array with element count 0 on an existing file: the
request is `0` bytes, so the file is only discovered, nothing is mapped
beyond an empty region and nothing is constructed. -/
theorem arrayOpenSized_zeroN (esz : Nat) (ctor : Bytes) (junk : Nat → Nat)
    (c : Bytes) :
    arrayOpenSized esz 0 ctor (some c) junk =
      Except.ok ⟨c, [], c.length, 0, []⟩ := by
  unfold arrayOpenSized openFile
  dsimp only
  rw [Nat.zero_mul, resize_no_grow c 0 junk (Nat.zero_le _), if_pos rfl]
  unfold buildLoop
  rw [Nat.zero_sub]
  dsimp only [buildLoopAux]
  simp

/-- Discovery-mode array on an existing file: the whole file is mapped and
reported initialized; the element count divides the file length as narrowed
to `unsigned`; nothing is constructed. -/
theorem arrayOpenDiscover_eq (esz : Nat) (c : Bytes) :
    arrayOpenDiscover esz (some c) =
      Except.ok ⟨c, c, c.length, c.length % UNSIGNED_MOD / esz, []⟩ := by
  unfold arrayOpenDiscover openFile
  dsimp only
  rw [resize_no_grow c 0 (fun _ => 0) (Nat.zero_le _), if_pos rfl]

/-! ### Theorems about the claims -/

/-- C4 counterexample: the claim says `resize` returns
`min(originalLength, requestedSize)` for every `requestedSize` including 0;
but on a one-byte file with `requestedSize = 0` the code returns the original
length 1, while `min(1, 0) = 0`. -/
theorem C4_resize_min_cex :
    ¬ (resize [5] 0 (fun _ => 0)).2 = min 1 0 := by decide

/-- C4 (amended): `resize` returns `min(originalLength, requestedSize)` when
`requestedSize > 0`; when `requestedSize == 0` the target is rebound to the
original length, so the original length itself is returned. -/
theorem C4_resize_return (file : Bytes) (req : Nat) (junk : Nat → Nat) :
    (resize file req junk).2 =
      if req = 0 then file.length else min file.length req := by
  unfold resize
  by_cases h : req = 0 <;> simp [h]

/-- C7 counterexample: the claim says the appended suffix consists entirely of
zero bytes; but the write buffer is `new char[n-off]`, i.e. uninitialized —
when the indeterminate buffer holds byte 1, extending an empty file to one
byte appends the byte 1, not 0. -/
theorem C7_resize_zero_cex :
    (resize [] 1 (fun _ => 1)).1.drop 0 = [1] ∧ ¬ (1 : Nat) = 0 := by decide

/-- C7 (amended): whenever the current length is below `requestedSize`,
`resize` extends the file by writing exactly `requestedSize − currentLength`
bytes at the end, preserving the existing bytes; the appended bytes are the
contents of an uninitialized buffer, so their values are unspecified. -/
theorem C7_resize_extend (file : Bytes) (req : Nat) (junk : Nat → Nat)
    (h : file.length < req) :
    (resize file req junk).1.take file.length = file ∧
    (resize file req junk).1.length = req ∧
    (resize file req junk).1.drop file.length =
      (List.range (req - file.length)).map junk := by
  have hreq : ¬ req = 0 := by omega
  unfold resize
  simp [hreq, h, List.take_left, List.drop_left]
  omega

/-- C7 witness. -/
theorem C7_resize_extend_w :
    (2 : Nat) < 5 ∧
    ((resize [3, 4] 5 (fun _ => 9)).1.take 2 = [3, 4] ∧
     (resize [3, 4] 5 (fun _ => 9)).1.length = 5 ∧
     (resize [3, 4] 5 (fun _ => 9)).1.drop 2 =
       (List.range 3).map (fun _ => 9)) :=
  ⟨by decide, C7_resize_extend [3, 4] 5 (fun _ => 9) (by decide)⟩

/-- C8 (code bug): the claim says a failed mapping syscall raises
MappingFailure and is never returned as a usable address.  The syscall
signals failure by returning `MAP_FAILED = (void*)-1`, but the source checks
the result against the null pointer (`if(!m)`), so the failure value passes
the check and is returned as the mapped address. -/
theorem C8_mmap_bug :
    mmap MAP_FAILED = Except.ok MAP_FAILED ∧ MAP_FAILED ≠ 0 := by
  constructor
  · unfold mmap MAP_FAILED
    norm_num
  · unfold MAP_FAILED
    norm_num

/-- C6: indexed access on a persisted array fails with the overlimit error
exactly when `n ≥ size()`, and for `n < size()` it returns element `n`
(its `sizeof(T)` bytes of the mapped region). -/
theorem C6_array_bounds (esz : Nat) (r : ArrResult) (n : Nat) :
    ((arrayIndex esz r n).isOk = true ↔ n < r.size) ∧
    (r.size ≤ n → arrayIndex esz r n = Except.error "persistent: overlimit") ∧
    (n < r.size →
      arrayIndex esz r n = Except.ok ((r.region.drop (n * esz)).take esz)) := by
  unfold arrayIndex
  by_cases h : r.size ≤ n
  all_goals simp [h, Except.isOk, Except.toBool]
  all_goals omega

/-- C6 witness. -/
theorem C6_array_bounds_w :
    (((arrayIndex 1 ⟨[3, 4], [3, 4], 2, 2, []⟩ 2).isOk = true ↔
        2 < (2 : Nat)) ∧
      ((2 : Nat) ≤ 2 →
        arrayIndex 1 ⟨[3, 4], [3, 4], 2, 2, []⟩ 2 =
          Except.error "persistent: overlimit") ∧
      (2 < (2 : Nat) →
        arrayIndex 1 ⟨[3, 4], [3, 4], 2, 2, []⟩ 2 =
          Except.ok (([3, 4].drop (2 * 1)).take 1))) :=
  C6_array_bounds 1 ⟨[3, 4], [3, 4], 2, 2, []⟩ 2

/-- C9 counterexample: the claim says every moved-from wrapper becomes an
empty handle that no longer refers to the mapping.  For `array<T>` (and
`object<T>`) the move constructor is `= default` (src/persistent.h:204, 168):
it move-constructs the base — which swaps and nulls the base's `_map` — but
copies the scalar members, so a moved-from array whose `_po` was the mapping
address 4096 and whose `_size` was 4 still holds `_po = 4096` and
`_size = 4`: it is not the empty handle and still refers to the mapped
address (a moved-from object likewise keeps its `_po`). -/
theorem C9_moved_from_refers_cex :
    (ArrayH.moveCtor ⟨⟨some 4096, 8, 8⟩, 4, 4096⟩).2 ≠
      (⟨⟨none, 0, 0⟩, 0, 0⟩ : ArrayH) ∧
    (ArrayH.moveCtor ⟨⟨some 4096, 8, 8⟩, 4, 4096⟩).2.po = 4096 ∧
    (ArrayH.moveCtor ⟨⟨some 4096, 8, 8⟩, 4, 4096⟩).2.size = 4 ∧
    (ObjectH.moveCtor ⟨⟨some 4096, 8⟩, 4096⟩).2.po = 4096 :=
  ⟨by decide, rfl, rfl, rfl⟩

/-- C9 (amended): every wrapper's move constructor transfers the state to the
target (which ends up equal to the source's original state); the moved-from
`memory`/`alloc` handle is fully empty (null `_map`, zeroed lengths), and
tearing down any moved-from wrapper performs no action at all — no `munmap`
and no write — because ownership lives in the base's `_map`, which the move
nulls.  The defaulted moves of `object<T>` and `array<T>`, however, copy the
raw pointer `_po` (and `array`'s `_size`) into the moved-from object, so a
moved-from object/array still refers to the mapped address; it is inert only
for teardown, not an empty handle.  (Non-copyability is a type-level fact of
the source: the copy constructors are `= delete` at src/persistent.h:72,
121, 167 and 203, so the model provides no copy operation.) -/
theorem C9_move_ownership (sz : Nat) (m : MemoryH) (a : AllocH) (o : ObjectH)
    (arr : ArrayH) :
    (m.moveCtor.1 = m ∧ m.moveCtor.2 = (⟨none, 0⟩ : MemoryH) ∧
      MemoryH.dtor sz m.moveCtor.2 = []) ∧
    (a.moveCtor.1 = a ∧ a.moveCtor.2 = (⟨none, 0, 0⟩ : AllocH) ∧
      AllocH.dtor a.moveCtor.2 = []) ∧
    (o.moveCtor.1 = o ∧ o.moveCtor.2.base = (⟨none, 0⟩ : MemoryH) ∧
      ObjectH.dtor sz o.moveCtor.2 = [] ∧ o.moveCtor.2.po = o.po) ∧
    (arr.moveCtor.1 = arr ∧ arr.moveCtor.2.base = (⟨none, 0, 0⟩ : AllocH) ∧
      ArrayH.dtor arr.moveCtor.2 = [] ∧ arr.moveCtor.2.po = arr.po ∧
      arr.moveCtor.2.size = arr.size) :=
  ⟨⟨rfl, rfl, rfl⟩, ⟨rfl, rfl, rfl⟩, ⟨rfl, rfl, rfl, rfl⟩,
    ⟨rfl, rfl, rfl, rfl, rfl⟩⟩

/-- C1: the `object<T>` constructor placement-constructs the `T` if and only
if `initialized() < sizeof(T)`; when `initialized() ≥ sizeof(T)` construction
is skipped, the backing file is left exactly as it was, and its pre-existing
leading `sizeof(T)` bytes are exposed as the live `T` — so a value mutated
after a first open and reopened retains the mutated contents, not the
reopen's constructor arguments. -/
theorem C1_object_construct (sz : Nat) (ctor : Bytes) (fs : Option Bytes)
    (junk : Nat → Nat) (r : ObjResult) (hsz : 0 < sz) (hc : ctor.length = sz)
    (hr : objectOpen sz ctor fs junk = Except.ok r) :
    (r.constructed = true ↔ r.init < sz) ∧
    (sz ≤ r.init → fs = some r.file ∧ r.live = r.file.take sz) := by
  cases fs with
  | none =>
      rw [objectOpen_fresh sz ctor junk hsz hc] at hr
      injection hr with h
      subst h
      exact ⟨by simpa using hsz, fun hge => absurd hge (Nat.not_le.mpr hsz)⟩
  | some c =>
      by_cases hlt : c.length < sz
      · rw [objectOpen_short sz ctor junk c hlt hc] at hr
        injection hr with h
        subst h
        exact ⟨by simpa using hlt, fun hge => absurd hge (Nat.not_le.mpr hlt)⟩
      · push_neg at hlt
        rw [objectOpen_reuse sz ctor junk c hsz hlt] at hr
        injection hr with h
        subst h
        exact ⟨by simp, fun _ => ⟨rfl, rfl⟩⟩

/-- C1 witness: reopening a two-byte object whose file holds the mutated
bytes `[3, 4]` with constructor image `[7, 8]` skips construction and
exposes `[3, 4]`. -/
theorem C1_object_construct_w :
    (0 : Nat) < 2 ∧ List.length [7, 8] = 2 ∧
    objectOpen 2 [7, 8] (some [3, 4]) (fun _ => 9) =
      Except.ok ⟨[3, 4], [3, 4], 2, false⟩ ∧
    ((false = true ↔ 2 < 2) ∧
      ((2 : Nat) ≤ 2 →
        (some [3, 4] : Option Bytes) = some [3, 4] ∧
        ([3, 4] : Bytes) = List.take 2 [3, 4])) :=
  ⟨by decide, by decide, rfl,
    C1_object_construct 2 [7, 8] (some [3, 4]) (fun _ => 9)
      ⟨[3, 4], [3, 4], 2, false⟩ (by decide) (by decide) rfl⟩

/-- C2: the sized `array<T>` constructor computes
`builtCount = initialized() / sizeof(T)` by integer division and
placement-constructs exactly the indices in `[builtCount, N)`, in ascending
order, each from the supplied constructor arguments (so each such element's
bytes equal the constructor image); indices below `builtCount` are not
constructed. -/
theorem C2_array_build (esz N : Nat) (ctor : Bytes) (fs : Option Bytes)
    (junk : Nat → Nat) (r : ArrResult) (he : 0 < esz) (hc : ctor.length = esz)
    (hr : arrayOpenSized esz N ctor fs junk = Except.ok r) :
    r.built = List.range' (r.init / esz) (N - r.init / esz) ∧
    r.region.drop (r.init / esz * esz) =
      (List.replicate (N - r.init / esz) ctor).flatten := by
  cases fs with
  | none =>
      by_cases hN : 0 < N
      · rw [arrayOpenSized_fresh esz N ctor junk he hN hc] at hr
        injection hr with h
        subst h
        constructor
        · simp
        · simp
      · have hN0 : N = 0 := by omega
        subst hN0
        unfold arrayOpenSized openFile at hr
        rw [Nat.zero_mul] at hr
        simp at hr
  | some c =>
      rcases Nat.eq_zero_or_pos N with hN | hN
      · subst hN
        rw [arrayOpenSized_zeroN esz ctor junk c] at hr
        injection hr with h
        subst h
        constructor
        · simp [Nat.zero_sub]
        · simp [Nat.zero_sub]
      · by_cases hlt : c.length < N * esz
        · rw [arrayOpenSized_grow esz N ctor junk c he hc hlt] at hr
          injection hr with h
          subst h
          refine ⟨rfl, ?_⟩
          have hkc : c.length / esz * esz ≤ c.length :=
            Nat.div_mul_le_self c.length esz
          have hlen : (c.take (c.length / esz * esz)).length =
              c.length / esz * esz := by
            simp [List.length_take]
            omega
          exact List.drop_left' hlen
        · push_neg at hlt
          rw [arrayOpenSized_noGrow esz N ctor junk c he hN hlt] at hr
          injection hr with h
          subst h
          show [] = List.range' (N * esz / esz) (N - N * esz / esz) ∧ _
          rw [Nat.mul_div_cancel N he, Nat.sub_self]
          constructor
          · simp
          · rw [List.drop_eq_nil_of_le (by simp [List.length_take])]
            simp

/-- C2 witness: a six-byte file holding three bytes of prior data, opened as
three two-byte elements, has `builtCount = 1` and constructs indices 1 and 2
in order. -/
theorem C2_array_build_w :
    (0 : Nat) < 2 ∧ List.length [5, 6] = 2 ∧
    arrayOpenSized 2 3 [5, 6] (some [1, 2, 3]) (fun _ => 9) =
      Except.ok ⟨[1, 2, 5, 6, 5, 6], [1, 2, 5, 6, 5, 6], 3, 3, [1, 2]⟩ ∧
    (([1, 2] : List Nat) = List.range' (3 / 2) (3 - 3 / 2) ∧
      List.drop (3 / 2 * 2) [1, 2, 5, 6, 5, 6] =
        (List.replicate (3 - 3 / 2) [5, 6]).flatten) :=
  ⟨by decide, by decide, rfl,
    C2_array_build 2 3 [5, 6] (some [1, 2, 3]) (fun _ => 9)
      ⟨[1, 2, 5, 6, 5, 6], [1, 2, 5, 6, 5, 6], 3, 3, [1, 2]⟩
      (by decide) (by decide) rfl⟩

/-- C3: opening a persisted array with target count `N2` on a file previously
sized for and fully initialized to `N1 < N2` elements leaves the bytes of
elements `[0, N1)` byte-for-byte unchanged — in the mapped region and in the
file — and constructs exactly the elements `[N1, N2)` in ascending order. -/
theorem C3_array_growth (esz N1 N2 : Nat) (ctor c : Bytes)
    (junk : Nat → Nat) (r : ArrResult) (he : 0 < esz) (hc : ctor.length = esz)
    (hl : c.length = N1 * esz) (hN : N1 < N2)
    (hr : arrayOpenSized esz N2 ctor (some c) junk = Except.ok r) :
    r.region.take (N1 * esz) = c ∧ r.file.take (N1 * esz) = c ∧
    r.built = List.range' N1 (N2 - N1) := by
  have hlt : c.length < N2 * esz := by
    rw [hl]
    exact (Nat.mul_lt_mul_right he).mpr hN
  rw [arrayOpenSized_grow esz N2 ctor junk c he hc hlt] at hr
  injection hr with h
  subst h
  have hk : c.length / esz = N1 := by rw [hl, Nat.mul_div_cancel N1 he]
  have htk : c.take (c.length / esz * esz) = c := by
    rw [hk, ← hl, List.take_length]
  refine ⟨?_, ?_, ?_⟩
  · show (c.take (c.length / esz * esz) ++ _).take (N1 * esz) = c
    rw [htk, ← hl, List.take_left]
  · show (c.take (c.length / esz * esz) ++ _).take (N1 * esz) = c
    rw [htk, ← hl, List.take_left]
  · show List.range' (c.length / esz) (N2 - c.length / esz) = _
    rw [hk]

/-- C3 witness: a file holding one fully initialized two-byte element,
reopened for three elements, keeps its first two bytes and constructs
indices 1 and 2. -/
theorem C3_array_growth_w :
    (0 : Nat) < 2 ∧ List.length [5, 6] = 2 ∧
    List.length [1, 2] = 1 * 2 ∧ (1 : Nat) < 3 ∧
    arrayOpenSized 2 3 [5, 6] (some [1, 2]) (fun _ => 9) =
      Except.ok ⟨[1, 2, 5, 6, 5, 6], [1, 2, 5, 6, 5, 6], 2, 3, [1, 2]⟩ ∧
    (List.take (1 * 2) [1, 2, 5, 6, 5, 6] = [1, 2] ∧
      List.take (1 * 2) [1, 2, 5, 6, 5, 6] = [1, 2] ∧
      ([1, 2] : List Nat) = List.range' 1 (3 - 1)) :=
  ⟨by decide, by decide, by decide, by decide, rfl,
    C3_array_growth 2 1 3 [5, 6] [1, 2] (fun _ => 9)
      ⟨[1, 2, 5, 6, 5, 6], [1, 2, 5, 6, 5, 6], 2, 3, [1, 2]⟩
      (by decide) (by decide) (by decide) (by decide) rfl⟩

/-- C10: opening an existing file of length `L` with `0 < requestedSize ≤ L`
changes nothing — the file keeps all its bytes — and reports initialized
length exactly `requestedSize`; consequently a sized array whose element
count `N` does not exceed the existing initialized element count performs
zero constructions, reports `size() == N`, and the file retains its larger
contents. -/
theorem C10_open_within (req esz N : Nat) (c ctor : Bytes)
    (junk : Nat → Nat) (hreq : 0 < req) (hreqle : req ≤ c.length)
    (he : 0 < esz) (hN : 0 < N) (hle : N ≤ c.length / esz) :
    openFile (some c) req junk = Except.ok (c, req) ∧
    arrayOpenSized esz N ctor (some c) junk =
      Except.ok ⟨c, c.take (N * esz), N * esz, N, []⟩ := by
  have hNle : N * esz ≤ c.length := by
    calc N * esz ≤ c.length / esz * esz := Nat.mul_le_mul_right esz hle
    _ ≤ c.length := Nat.div_mul_le_self c.length esz
  constructor
  · unfold openFile
    dsimp only
    rw [resize_no_grow c req junk hreqle, if_neg (by omega : ¬ req = 0)]
  · exact arrayOpenSized_noGrow esz N ctor junk c he hN hNle

/-- C10 witness: a six-byte file opened with request 3, and as a one-element
array of two-byte elements: no byte changes, no construction. -/
theorem C10_open_within_w :
    (0 : Nat) < 3 ∧ (3 : Nat) ≤ List.length [1, 2, 3, 4, 9, 9] ∧
    (0 : Nat) < 2 ∧ (0 : Nat) < 1 ∧
    (1 : Nat) ≤ List.length [1, 2, 3, 4, 9, 9] / 2 ∧
    (openFile (some [1, 2, 3, 4, 9, 9]) 3 (fun _ => 0) =
        Except.ok ([1, 2, 3, 4, 9, 9], 3) ∧
      arrayOpenSized 2 1 [5, 6] (some [1, 2, 3, 4, 9, 9]) (fun _ => 0) =
        Except.ok ⟨[1, 2, 3, 4, 9, 9], List.take (1 * 2) [1, 2, 3, 4, 9, 9],
          1 * 2, 1, []⟩) :=
  ⟨by decide, by decide, by decide, by decide, by decide,
    C10_open_within 3 2 1 [1, 2, 3, 4, 9, 9] [5, 6] (fun _ => 0)
      (by decide) (by decide) (by decide) (by decide) (by decide)⟩

/-- C5 (code bug): discovery mode on an existing file of byte length
`L = 2^32` with one-byte elements reports `size() == 0`, because
`alloc::size()` narrows the `size_t` member `_size` to `unsigned` before the
division, while the claim (and the design, whose `_size` member is a
`size_t`) requires `size() == L / sizeof(T) = 2^32`. -/
theorem C5_discovery_size_bug :
    arrayOpenDiscover 1 (some (List.replicate (2 ^ 32) 0)) =
      Except.ok ⟨List.replicate (2 ^ 32) 0, List.replicate (2 ^ 32) 0,
        (List.replicate (2 ^ 32) (0 : Nat)).length, 0, []⟩ ∧
    (2 ^ 32 : Nat) / 1 = 2 ^ 32 ∧ (2 ^ 32 : Nat) ≠ 0 := by
  have hsize :
      (List.replicate (2 ^ 32) (0 : Nat)).length % UNSIGNED_MOD / 1 = 0 := by
    rw [List.length_replicate]
    norm_num [UNSIGNED_MOD]
  refine ⟨?_, by norm_num, by norm_num⟩
  rw [arrayOpenDiscover_eq 1 (List.replicate (2 ^ 32) 0), hsize]

end Persistent
